import Mathlib

/-!
Verification of the academic-evidence-finder scanning and scoring engine.

The definitions below are a shallow embedding of the Python sources
`scripts/scan.py`, `scripts/scan_optimized.py` and `scripts/extractors.py`.
Machine floats carrying scores and timestamps are modelled by `ℚ`; Python
ints by `ℤ`/`ℕ`; compiled regular expressions by the list of match spans
`finditer` yields on a given text; `None`-able values by `Option`; code
that can raise by `Except`.
-/

namespace AEF

/-! ## Strings: substring search, basename, splitext -/

/-- Whether `needle` occurs as a contiguous sublist of the second list. -/
def charsContains (needle : List Char) : List Char → Bool
  | [] => needle.isPrefixOf []
  | c :: rest => needle.isPrefixOf (c :: rest) || charsContains needle rest

/-- Literal substring test, the semantics of `re.search(re.escape(k), hay)`. -/
def containsSub (hay needle : String) : Bool :=
  charsContains needle.toList hay.toList

/-- ASCII lowercasing of one character, as Python's `str.lower` acts on
the ASCII range. -/
def lowerChar (c : Char) : Char :=
  if 'A' ≤ c ∧ c ≤ 'Z' then Char.ofNat (c.toNat + 32) else c

/-- ASCII lowercasing of a string (`.lower()`). -/
def lowerStr (s : String) : String := String.mk (s.data.map lowerChar)

/-- Case-insensitive literal substring test, the semantics of
`re.search(re.escape(k), hay, re.IGNORECASE)` (ASCII case folding). -/
def containsCI (hay needle : String) : Bool :=
  containsSub (lowerStr hay) (lowerStr needle)

/-- Split a character list on a separator; the list of groups is never
empty. -/
def splitOnChar (sep : Char) : List Char → List (List Char)
  | [] => [[]]
  | c :: rest =>
    match splitOnChar sep rest with
    | [] => [[]]
    | g :: gs => if c = sep then [] :: g :: gs else (c :: g) :: gs

/-- The part of the path after the final slash, as `os.path.basename`. -/
def basename (p : String) : String :=
  String.mk ((splitOnChar '/' p.data).getLastD [])

/-- Scan a reversed character list up to the first dot: returns
`(chars before the dot, chars after it)`, both still reversed, or `none`
when the list has no dot. -/
def splitRevAtDot : List Char → Option (List Char × List Char)
  | [] => none
  | c :: rest =>
    if c = '.' then some ([], rest)
    else (splitRevAtDot rest).map (fun pr => (c :: pr.1, pr.2))

/-- Extension of a path, as `os.path.splitext(p)[1]`: the suffix of the
basename starting at its last dot, provided at least one earlier character
of the basename is not a dot (so a leading-dot name has no extension). -/
def extOf (p : String) : String :=
  let base := basename p
  match splitRevAtDot base.toList.reverse with
  | none => ""
  | some pr =>
    if pr.2.any (fun c => c ≠ '.') then String.mk ('.' :: pr.1.reverse)
    else ""

/-! ## Scoring engine (`scan.py:83-89`, `scan_optimized.py:332-339`) -/

/-- A compiled regular expression, modelled extensionally: `spans t` is the
list of `(start, end)` spans that `pat.finditer(t)` yields on `t`. -/
structure Pat where
  spans : String → List (ℕ × ℕ)

/-- From `scan.py:83-89` (and the identical `TwoPassScanner._score_text`):
per-pattern unique match spans are counted (`len(set(...))`, modelled by
`List.dedup.length`), summed across patterns, and the hit contribution is
capped by `min(hits * per_hit, cap)`.  The empty text returns `(0, 0)`
without consulting the patterns (`if not text`). -/
def score_text (text : String) (pats : List Pat) (per_hit cap : ℤ) : ℤ × ℕ :=
  if text = "" then (0, 0)
  else
    let hits := pats.foldl (fun acc pat => acc + ((pat.spans text).dedup).length) (0 : ℕ)
    (min ((hits : ℤ) * per_hit) cap, hits)

/-! ## Rules and category-level adjustment (`scan.py:57-81`, `scan.py:301-385`) -/

/-- Compiled rule set: category name, then subcategory name with its
compiled pattern list, in configuration order (`load_rules`,
`TwoPassScanner._compile_rules`). -/
abbrev Compiled := List (String × List (String × List Pat))

/-- The multiplier `cat_w.get(cat, 1.0)` — dictionary lookup with default
`1.0` (`scan.py:308`, `scan_optimized.py:275`). -/
def catWeight (cat_w : List (String × ℚ)) (cat : String) : ℚ :=
  match cat_w.find? (fun kv => kv.1 = cat) with
  | some kv => kv.2
  | none => 1

/-- Bonus sum of `scan.py:309-316`: each configured keyword contributes its
points once when it is nonempty (`if k`) and occurs case-insensitively as a
literal substring of the text, regardless of how often it occurs. -/
def bonusSum (bonus : List (String × ℚ)) (text : String) : ℚ :=
  bonus.foldl
    (fun acc kv => if kv.1 ≠ "" ∧ containsCI text kv.1 then acc + kv.2 else acc) 0

/-- Bonus sum of `scan_optimized.py:276-278`: as `bonusSum` but without the
`if k` guard, so the empty keyword always matches. -/
def bonusSumP2 (bonus : List (String × ℚ)) (text : String) : ℚ :=
  bonus.foldl
    (fun acc kv => if containsCI text kv.1 then acc + kv.2 else acc) 0

/-- One evidence row, the dictionaries appended to `rows` in both scanners. -/
structure Row where
  source : String
  path : String
  display : String
  category : String
  subcategory : String
  hits : ℕ
  score : ℚ
  meta : String
  when : String
deriving DecidableEq

/-- A calendar or mailbox item as produced by `iter_ics` / `iter_mbox`:
display label, assembled text, ISO date and provenance string. -/
structure SrcItem where
  display : String
  text : String
  whend : String
  meta : String
deriving DecidableEq

/-- Rows emitted for one file item by the single-pass scanner
(`scan.py:301-330`): for every (category, subcategory) whose capped raw
score is positive, one row whose stored score is
`score * cat_w.get(cat, 1.0) + bsum`.  (The source's
`int(adj_score) if adj_score.is_integer()` step does not change the numeric
value and is absorbed by `ℚ`.) -/
def fileRowsForItem (compiled : Compiled) (cat_w bonus : List (String × ℚ))
    (per_hit cap : ℤ) (path text metaStr whenStr : String) : List Row :=
  compiled.flatMap (fun cs =>
    cs.2.filterMap (fun sp =>
      let sh := score_text text sp.2 per_hit cap
      if 0 < sh.1 then
        some { source := "files", path := path, display := path,
               category := cs.1, subcategory := sp.1, hits := sh.2,
               score := (sh.1 : ℚ) * catWeight cat_w cs.1 + bonusSum bonus text,
               meta := metaStr, when := whenStr }
      else none))

/-- Rows emitted for one calendar event by the single-pass scanner
(`scan.py:341-362`): the stored score is the raw capped score, with no
category weight and no bonus. -/
def calendarRowsForItem (compiled : Compiled) (per_hit cap : ℤ)
    (item : SrcItem) : List Row :=
  compiled.flatMap (fun cs =>
    cs.2.filterMap (fun sp =>
      let sh := score_text item.text sp.2 per_hit cap
      if 0 < sh.1 then
        some { source := "calendar", path := "ics", display := item.display,
               category := cs.1, subcategory := sp.1, hits := sh.2,
               score := (sh.1 : ℚ),
               meta := item.meta, when := item.whend }
      else none))

/-- Rows emitted for one mailbox message by the single-pass scanner
(`scan.py:364-385`): as for calendar items, the raw capped score is stored
unchanged. -/
def emailRowsForItem (compiled : Compiled) (per_hit cap : ℤ)
    (item : SrcItem) : List Row :=
  compiled.flatMap (fun cs =>
    cs.2.filterMap (fun sp =>
      let sh := score_text item.text sp.2 per_hit cap
      if 0 < sh.1 then
        some { source := "email", path := "mbox", display := item.display,
               category := cs.1, subcategory := sp.1, hits := sh.2,
               score := (sh.1 : ℚ),
               meta := item.meta, when := item.whend }
      else none))

/-- Rows emitted for one file by Pass 2 of the two-pass scanner
(`scan_optimized.py:266-290`): weighted score plus the Pass-2 bonus sum. -/
def pass2RowsForItem (compiled : Compiled) (cat_w bonus : List (String × ℚ))
    (per_hit cap : ℤ) (path text metaStr whenStr : String) : List Row :=
  compiled.flatMap (fun cs =>
    cs.2.filterMap (fun sp =>
      let sh := score_text text sp.2 per_hit cap
      if 0 < sh.1 then
        some { source := "files", path := path, display := path,
               category := cs.1, subcategory := sp.1, hits := sh.2,
               score := (sh.1 : ℚ) * catWeight cat_w cs.1 + bonusSumP2 bonus text,
               meta := metaStr, when := whenStr }
      else none))

/-- The positive capped raw scores of an item's text, per (category,
subcategory) in rule order: the spine shared by all four row emitters. -/
def rawPositiveScores (compiled : Compiled) (per_hit cap : ℤ)
    (text : String) : List (String × ℤ) :=
  compiled.flatMap (fun cs =>
    cs.2.filterMap (fun sp =>
      let sh := score_text text sp.2 per_hit cap
      if 0 < sh.1 then some (cs.1, sh.1) else none))

/-! ## Date filters (`scan.py:15-18`, `scan.py:93-113`, `scan.py:228-246`) -/

/-- The source's `to_epoch`: `datetime.strptime(dstr, "%Y-%m-%d")` at UTC
midnight, as a POSIX timestamp.  A date string is represented by its day
number since 1970-01-01, so the timestamp is `day * 86400`; `None` input
gives `None`. -/
def to_epoch : Option ℤ → Option ℚ
  | none => none
  | some day => some ((day : ℚ) * 86400)

/-- Python truthiness of an optional timestamp, as used in
`if since_ts and ...` / `if until_ts and ...`: `None` and `0.0` are falsy. -/
def tsTruthy : Option ℚ → Bool
  | none => false
  | some t => t ≠ 0

/-- Value of an optional timestamp once known truthy. -/
def tsVal : Option ℚ → ℚ
  | none => 0
  | some t => t

/-- The `since` exclusion in both walkers and the path-list filter:
`if since_ts and mt < since_ts: continue`. -/
def sinceExcludes (since_ts : Option ℚ) (mt : ℚ) : Bool :=
  tsTruthy since_ts && mt < tsVal since_ts

/-- The `until` exclusion in both walkers and the path-list filter:
`if until_ts and mt > until_ts + 86399: continue` (inclusive end-of-day). -/
def untilExcludes (until_ts : Option ℚ) (mt : ℚ) : Bool :=
  tsTruthy until_ts && tsVal until_ts + 86399 < mt

/-- Result of `os.stat`: modification time (seconds, `ℚ` for the float)
and size in bytes. -/
structure Stat where
  st_mtime : ℚ
  st_size : ℤ
deriving DecidableEq

/-- Per-file acceptance test of `walk_files` (`scan.py:97-113`) and of the
identical loop body in `walk_directories` (`scan_optimized.py:357-380`):
extension filter (skipped when the extension set is empty), size filter
(skipped when `max_bytes` is `0`), then the two date filters.  `name` is
the entry's basename; the `stat` failure case is handled by the caller. -/
def fileKeepWalk (include_exts : List String) (max_bytes : ℤ)
    (since_ts until_ts : Option ℚ) (name : String) (st : Stat) : Bool :=
  let ext := extOf (lowerStr name)
  if include_exts ≠ [] ∧ ¬ include_exts.contains ext then false
  else if max_bytes ≠ 0 ∧ max_bytes < st.st_size then false
  else if sinceExcludes since_ts st.st_mtime then false
  else if untilExcludes until_ts st.st_mtime then false
  else true

/-- Per-path acceptance test of the pre-resolved path-list branch
(`scan.py:228-244`): lowercased basename, extension filter, size filter,
then the two date filters, with the same truthiness guards. -/
def pathListKeep (include_exts : List String) (max_bytes : ℤ)
    (since_ts until_ts : Option ℚ) (p : String) (st : Stat) : Bool :=
  let name := lowerStr (basename p)
  let ext := extOf name
  if include_exts ≠ [] ∧ ¬ include_exts.contains ext then false
  else if max_bytes ≠ 0 ∧ max_bytes < st.st_size then false
  else if sinceExcludes since_ts st.st_mtime then false
  else if untilExcludes until_ts st.st_mtime then false
  else true

/-! ## Directory walker (`scan.py:93-113`, `scan_optimized.py:349-382`) -/

/-- A file as the walker sees it: basename plus the result of `os.stat`
(`none` when `stat` raises and the file is skipped silently). -/
structure FileEnt where
  fname : String
  fstat : Option Stat
deriving DecidableEq

/-- A directory tree: basename, subdirectories, files. -/
inductive FSDir where
  | mk (dname : String) (subdirs : List FSDir) (files : List FileEnt)

/-- Basename of a directory. -/
def FSDir.dname : FSDir → String
  | .mk n _ _ => n

/-- Subdirectories of a directory. -/
def FSDir.subdirs : FSDir → List FSDir
  | .mk _ s _ => s

/-- Files of a directory. -/
def FSDir.files : FSDir → List FileEnt
  | .mk _ _ f => f

mutual

/-- The directories `os.walk` visits under one root, as component paths,
after the in-place prune `dirnames[:] = [d for d in dirnames if d not in
exclude_dirs]` (`scan.py:96`, `scan_optimized.py:355`): the root is yielded
first, then the surviving subtrees in order.  A pruned subtree is never
entered at all — the recursion is guarded by the membership test. -/
def walkVisited (exclude_dirs : List String) : FSDir → List (List String)
  | .mk n subs _ => [n] :: walkVisitedKids exclude_dirs n subs

/-- Traversal of the (pruned) children of a visited directory. -/
def walkVisitedKids (exclude_dirs : List String) (n : String) :
    List FSDir → List (List String)
  | [] => []
  | d :: ds =>
    (if exclude_dirs.contains d.dname then []
     else (walkVisited exclude_dirs d).map (fun p => n :: p))
    ++ walkVisitedKids exclude_dirs n ds

end

mutual

/-- The file paths one root contributes to `files_to_scan`
(`scan.py:93-113`): for each visited directory, its files that `stat`
successfully and pass `fileKeepWalk`, then the surviving subtrees, with the
same prune as `walkVisited`. -/
def walk_files (exclude_dirs include_exts : List String) (max_bytes : ℤ)
    (since_ts until_ts : Option ℚ) : FSDir → List (List String)
  | .mk n subs files =>
    (files.filterMap (fun f =>
      match f.fstat with
      | none => none
      | some st =>
        if fileKeepWalk include_exts max_bytes since_ts until_ts f.fname st then
          some [n, f.fname]
        else none))
    ++ walkFilesKids exclude_dirs include_exts max_bytes since_ts until_ts n subs

/-- Traversal of the (pruned) children for `walk_files`. -/
def walkFilesKids (exclude_dirs include_exts : List String) (max_bytes : ℤ)
    (since_ts until_ts : Option ℚ) (n : String) : List FSDir → List (List String)
  | [] => []
  | d :: ds =>
    (if exclude_dirs.contains d.dname then []
     else (walk_files exclude_dirs include_exts max_bytes since_ts until_ts d).map
       (fun p => n :: p))
    ++ walkFilesKids exclude_dirs include_exts max_bytes since_ts until_ts n ds

end

/-! ## Text extractors (`extractors.py`) -/

/-- External capabilities the extractors consume: `fs p` is the content
`open(p)` delivers (`none` when `open` raises, e.g. a missing file), and
each library call returns `some` extracted text or `none` when it raises. -/
structure ExtractEnv where
  fs : String → Option String
  pdfLib : String → Option String
  docxLib : String → Option String
  pptxLib : String → Option String

/-- From `extractors.py:6-8`: `open(path, "r", errors="ignore").read()`
with no exception handler — a failing `open` propagates the exception. -/
def read_txt (env : ExtractEnv) (path : String) : Except String String :=
  match env.fs path with
  | some contents => .ok contents
  | none => .error "FileNotFoundError"

/-- From `extractors.py:10-14`: any exception is caught and the empty
string returned; a `None`-ish library result also becomes `""`. -/
def read_pdf (env : ExtractEnv) (path : String) : Except String String :=
  .ok ((env.pdfLib path).getD "")

/-- From `extractors.py:16-20`: as `read_pdf`, over `docx2txt`. -/
def read_docx (env : ExtractEnv) (path : String) : Except String String :=
  .ok ((env.docxLib path).getD "")

/-- From `extractors.py:22-32`: as `read_pdf`, over `python-pptx` (the
joined slide texts are abstracted into one library result). -/
def read_pptx (env : ExtractEnv) (path : String) : Except String String :=
  .ok ((env.pptxLib path).getD "")

/-- From `extractors.py:41-46`: dispatch on the lowercased extension
through the `READERS` table; unknown extensions yield `""`. -/
def extract_text (env : ExtractEnv) (path : String) : Except String String :=
  let ext := extOf (lowerStr path)
  if ext = ".txt" then read_txt env path
  else if ext = ".pdf" then read_pdf env path
  else if ext = ".docx" then read_docx env path
  else if ext = ".pptx" then read_pptx env path
  else .ok ""

/-! ## Pass 1 metadata analyzer (`scan_optimized.py:17-134`) -/

/-- A metadata heuristic pattern: its source text (used for the reason
tag) and its match semantics on an already-lowercased string.  Each of the
hard-coded patterns is either a literal (the filename patterns contain
literal backslashes: the Python source writes `r'\\bsyllabus\\b'` inside a
raw string, so the regex matches the literal text `\bsyllabus\b`) or a
literal with one optional trailing letter (`/courses?/`), here expanded
into the list of alternative literals. -/
structure MPat where
  src : String
  alts : List String
deriving DecidableEq

/-- Whether an `MPat` matches a (lowercased) string: some alternative
occurs as a literal substring. -/
def MPat.matches (p : MPat) (s : String) : Bool :=
  p.alts.any (fun a => containsSub s a)

/-- A literal pattern with no alternation. -/
def lit (s : String) : MPat := ⟨s, [s]⟩

/-- A pattern `pre + c? + post`: the optional-letter form. -/
def litOpt (pre mid post : String) : MPat :=
  ⟨pre ++ mid ++ "?" ++ post, [pre ++ post, pre ++ mid ++ post]⟩

/-- The tables built by `MetadataAnalyzer.load_metadata_rules`
(`scan_optimized.py:35-64`). -/
structure MetadataRules where
  filename_patterns : List (String × List MPat)
  path_patterns : List (String × List MPat)
  extension_hints : List (String × List (String × ℚ))
deriving DecidableEq

/-- From `scan_optimized.py:35-64`: the rule tables are hard-coded — the
`rules_config` the analyzer was constructed with is never consulted.  The
filename patterns are written `r'\\b...\\b'` in the source, i.e. regexes
that match the literal backslash-delimited text. -/
def load_metadata_rules (cfg_categories : List String) : MetadataRules :=
  { filename_patterns :=
      [("teaching",
         [lit "\\bsyllabus\\b", lit "\\bassignment\\b", lit "\\bexam\\b",
          lit "\\bquiz\\b", lit "\\bgrading\\b", lit "\\brubric\\b",
          lit "\\blesson\\b", lit "\\bcourse\\b", lit "\\bstudent\\b",
          lit "\\bgrade\\b", lit "\\bhomework\\b", lit "\\btest\\b"]),
       ("service",
         [lit "\\bcommittee\\b", lit "\\bmeeting\\b", lit "\\bagenda\\b",
          lit "\\bminutes\\b", lit "\\breview\\b", lit "\\bevaluation\\b",
          lit "\\bproposal\\b", lit "\\bservice\\b"]),
       ("scholarship",
         [lit "\\bresearch\\b", lit "\\bpaper\\b", lit "\\barticle\\b",
          lit "\\bmanuscript\\b", lit "\\babstract\\b", lit "\\bpublication\\b",
          lit "\\bconference\\b", lit "\\bgrant\\b", lit "\\bcomposition\\b",
          lit "\\barrangement\\b", lit "\\bdrill\\b", lit "\\bscore\\b"]),
      ],
    path_patterns :=
      [("teaching",
         [lit "/teaching/", litOpt "/course" "s" "/", lit "/class/",
          litOpt "/syllab" "i" "/", litOpt "/assignment" "s" "/"]),
       ("service",
         [lit "/service/", lit "/committee/", lit "/admin/",
          litOpt "/meeting" "s" "/"]),
       ("scholarship",
         [lit "/research/", litOpt "/publication" "s" "/",
          litOpt "/manuscript" "s" "/", lit "/creative/",
          litOpt "/composition" "s" "/"]),
      ],
    extension_hints :=
      [("teaching", [(".pptx", 3), (".pdf", 1), (".docx", 2), (".xlsx", 2)]),
       ("scholarship",
         [(".pdf", 3), (".docx", 3), (".musx", 5), (".sib", 5),
          (".3dj", 5), (".musicxml", 4)]),
       ("service", [(".pdf", 2), (".docx", 2), (".xlsx", 2), (".pptx", 1)]),
      ] }

/-- Per-category score accumulators, an association list mirroring the
dict `{'teaching': 0, 'service': 0, 'scholarship': 0}` in insertion
order. -/
abbrev Scores := List (String × ℚ)

/-- Add to one category's accumulator (`scores[category] += d`). -/
def addTo (sc : Scores) (cat : String) (d : ℚ) : Scores :=
  sc.map (fun kv => if kv.1 = cat then (kv.1, kv.2 + d) else kv)

/-- Add to every accumulator (`for category in scores: ...`). -/
def addAll (sc : Scores) (d : ℚ) : Scores :=
  sc.map (fun kv => (kv.1, kv.2 + d))

/-- Python's `max(scores, key=scores.get)` over the dict's insertion
order: the first key attaining the maximum wins, a later key replacing the
current best only when strictly greater.  (On an empty dict the source
would raise; the accumulator dict is never empty.) -/
def bestOf : Scores → String × ℚ
  | [] => ("misc", 0)
  | kv :: rest => rest.foldl (fun acc x => if acc.2 < x.2 then x else acc) kv

/-- Pass 1 output record (`scan_optimized.py:125-134`). -/
structure FileMetadataRecord where
  path : String
  category : String
  confidence : ℚ
  scores : Scores
  reasons : List String
  size_kb : ℚ
  age_days : ℚ
  extension : String
deriving DecidableEq

/-- Inner loop of the pattern-table passes: `for pattern in patterns:
if re.search(...): scores[category] += pts; reasons.append(tag)`
(`scan_optimized.py:76-87`). -/
def applyPats (cat subject tag : String) (pts : ℚ) :
    List MPat → Scores × List String → Scores × List String
  | [], acc => acc
  | p :: ps, acc =>
    applyPats cat subject tag pts ps
      (if p.matches subject then (addTo acc.1 cat pts, acc.2 ++ [tag ++ p.src])
       else acc)

/-- Outer loop of the pattern-table passes: `for category, patterns in
table.items(): ...` (`scan_optimized.py:75-87`). -/
def applyPatternTable (subject tag : String) (pts : ℚ) :
    List (String × List MPat) → Scores × List String → Scores × List String
  | [], acc => acc
  | cp :: rest, acc =>
    applyPatternTable subject tag pts rest (applyPats cp.1 subject tag pts cp.2 acc)

/-- The extension-hint pass: `for category, ext_scores in
extension_hints.items(): if ext in ext_scores: ...`
(`scan_optimized.py:89-93`). -/
def applyExtHints (ext : String) :
    List (String × List (String × ℚ)) → Scores × List String → Scores × List String
  | [], acc => acc
  | ce :: rest, acc =>
    applyExtHints ext rest
      (match ce.2.find? (fun es => es.1 = ext) with
       | some es => (addTo acc.1 ce.1 es.2, acc.2 ++ ["ext:" ++ ext])
       | none => acc)

/-- `MetadataAnalyzer.analyze_file_metadata` (`scan_optimized.py:66-134`).
The analyzer never opens the file: it sees only the path string, the
`stat` result and — through `time.time()` at line 96 — the current clock,
which the extra argument `now` makes explicit. -/
def analyze_file_metadata (rules : MetadataRules) (now : ℚ)
    (filepath : String) (st : Stat) : FileMetadataRecord :=
  let filename := lowerStr (basename filepath)
  let path_lower := lowerStr filepath
  let ext := extOf filename
  let acc0 : Scores × List String :=
    ([("teaching", 0), ("service", 0), ("scholarship", 0)], [])
  let acc1 := applyPatternTable filename "filename:" 2 rules.filename_patterns acc0
  let acc2 := applyPatternTable path_lower "path:" 3 rules.path_patterns acc1
  let acc3 := applyExtHints ext rules.extension_hints acc2
  let age_days := (now - st.st_mtime) / 86400
  let acc4 :=
    if age_days < 365 then (addAll acc3.1 (1/2), acc3.2 ++ ["recent_file"])
    else acc3
  let size_kb := (st.st_size : ℚ) / 1024
  let acc5 :=
    if size_kb < 1 then (addAll acc4.1 (-2), acc4.2 ++ ["tiny_file"])
    else if 100000 < size_kb then (addAll acc4.1 (-1), acc4.2 ++ ["huge_file"])
    else (addAll acc4.1 0, acc4.2)
  let best := bestOf acc5.1
  if best.2 < 1 then
    { path := filepath, category := "misc", confidence := 0,
      scores := acc5.1, reasons := acc5.2 ++ ["low_confidence"],
      size_kb := size_kb, age_days := age_days, extension := ext }
  else
    { path := filepath, category := best.1, confidence := best.2,
      scores := acc5.1, reasons := acc5.2,
      size_kb := size_kb, age_days := age_days, extension := ext }

/-! ## Final ordering (`scan.py:392`, `scan_optimized.py:305`) -/

/-- Lexicographic refinement of a linear-order key: strictly smaller key,
or equal keys and the tie-break relation.  This is how Python compares the
sort-key tuples component by component. -/
def byKey {γ α : Type} [LinearOrder α] (f : γ → α) (rest : γ → γ → Prop)
    (a b : γ) : Prop :=
  f a < f b ∨ (f a = f b ∧ rest a b)

instance byKeyDecidable {γ α : Type} [LinearOrder α] (f : γ → α)
    (rest : γ → γ → Prop) [DecidableRel rest] : DecidableRel (byKey f rest) :=
  fun a b => by unfold byKey; infer_instance

/-- Key order of `scan.py:392`: the tuple
`(source, -score, category, subcategory, display)` — score descending via
the negation, with the display string as final tie-break.  Python compares
the string components by code points, i.e. lexicographically on their
character lists, so the keys are taken as `String.data`. -/
def rowLe5 : Row → Row → Prop :=
  byKey (fun r => r.source.data) (byKey (fun r => OrderDual.toDual r.score)
    (byKey (fun r => r.category.data) (byKey (fun r => r.subcategory.data)
      (fun a b => a.display.data ≤ b.display.data))))

/-- Key order of `scan_optimized.py:305`: the tuple
`(source, -score, category, subcategory)` — no display component. -/
def rowLe4 : Row → Row → Prop :=
  byKey (fun r => r.source.data) (byKey (fun r => OrderDual.toDual r.score)
    (byKey (fun r => r.category.data)
      (fun a b => a.subcategory.data ≤ b.subcategory.data)))

instance : DecidableRel rowLe5 := by unfold rowLe5; infer_instance

instance : DecidableRel rowLe4 := by unfold rowLe4; infer_instance

/-- The final sort of the single-pass scanner
(`rows.sort(key=lambda r: (r["source"], -float(r["score"]), r["category"],
r["subcategory"], r["display"]))`, `scan.py:392`).  Python's sort is
stable, and a stable sort by a total preorder is unique, so it is modelled
by insertion sort ordered by `rowLe5`. -/
def sortRowsSinglePass (rows : List Row) : List Row :=
  rows.insertionSort rowLe5

/-- The final sort of the two-pass scanner
(`rows.sort(key=lambda r: (r['source'], -float(r['score']), r['category'],
r['subcategory']))`, `scan_optimized.py:305`), modelled the same way. -/
def sortRowsTwoPass (rows : List Row) : List Row :=
  rows.insertionSort rowLe4

/-! ## Concrete inputs used by counterexamples and witnesses -/

/-- A pattern behaving, at the empty text, like the compiled regex `a*`:
`re.finditer` on `""` yields exactly one (empty) match with span `(0, 0)`.
Only its value at the inputs actually evaluated below matters. -/
def patStar : Pat := ⟨fun t => if t = "" then [(0, 0)] else []⟩

/-- An extraction environment in which every `open` and every library call
raises (e.g. the path does not exist). -/
def emptyFsEnv : ExtractEnv :=
  ⟨fun _ => none, fun _ => none, fun _ => none, fun _ => none⟩

/-- A pattern behaving, on the text `"grant nsf"`, like the compiled regex
`\bgrant\b`: one match with span `(0, 5)`. -/
def patGrant : Pat := ⟨fun t => if t = "grant nsf" then [(0, 5)] else []⟩

/-- A one-category, one-subcategory compiled rule set built on `patGrant`. -/
def compiledC1 : Compiled := [("teaching", [("s1", [patGrant])])]

/-- A calendar event whose text matches `patGrant` and contains the bonus
keyword `nsf`. -/
def itemC1 : SrcItem := ⟨"Meeting", "grant nsf", "2024-01-01", "meta"⟩

/-- A pattern behaving, on the text `"grant nsf review"`, like the
compiled regex `\bgrant\b`: one match with span `(0, 5)`. -/
def patG4 : Pat := ⟨fun t => if t = "grant nsf review" then [(0, 5)] else []⟩

/-- A pattern behaving, on the text `"grant nsf review"`, like the
compiled regex `\breview\b`: one match with span `(10, 16)`. -/
def patR4 : Pat := ⟨fun t => if t = "grant nsf review" then [(10, 16)] else []⟩

/-- One category with two subcategories, both matching the text
`"grant nsf review"`. -/
def compiledC4 : Compiled := [("teaching", [("s1", [patG4]), ("s2", [patR4])])]

/-- A row that ties with `rowA` on source, score, category and
subcategory but has the lexicographically larger display `/b`. -/
def rowB : Row :=
  { source := "files", path := "/b", display := "/b", category := "c",
    subcategory := "s", hits := 1, score := 3, meta := "m", when := "w" }

/-- A row equal to `rowB` on the four-component key, display `/a`. -/
def rowA : Row :=
  { source := "files", path := "/a", display := "/a", category := "c",
    subcategory := "s", hits := 1, score := 3, meta := "m", when := "w" }

/-- A directory tree with one ordinary subdirectory `docs` and one
subdirectory `node_modules` that the exclude set prunes. -/
def treeC10 : FSDir :=
  .mk "root"
    [.mk "docs" [] [⟨"a.txt", some ⟨10, 5⟩⟩],
     .mk "node_modules" [.mk "inner" [] [⟨"c.txt", some ⟨10, 5⟩⟩]]
       [⟨"b.txt", some ⟨10, 5⟩⟩]]
    []

end AEF

namespace AEF

/-! ## Helper lemmas -/

theorem foldl_add_map {α : Type} (f : α → ℕ) :
    ∀ (l : List α) (a : ℕ), l.foldl (fun acc x => acc + f x) a = a + (l.map f).sum
  | [], a => by simp
  | x :: l, a => by
    simp only [List.foldl_cons, List.map_cons, List.sum_cons]
    rw [foldl_add_map f l (a + f x)]
    omega

/-! ## C2 — the cap as a hard ceiling -/

/-- Claim C2 as frozen is false: for the empty text the scorer returns `0`
without consulting the cap, so a negative cap is exceeded
(`score_text("", pats, 1, -1) = (0, 0)` and `0 > -1`). -/
theorem C2_counterexample : ¬ ((score_text "" [] 1 (-1)).1 ≤ -1) := by decide

/-- Claim C2 (amended): the returned score is at most `max cap 0` — it is
at most `cap` whenever `cap ≥ 0`; the empty text yields score `0`
regardless of the cap.  The bound holds before any weighting. -/
theorem C2_cap_ceiling (text : String) (pats : List Pat) (per_hit cap : ℤ) :
    (score_text text pats per_hit cap).1 ≤ max cap 0 := by
  unfold score_text
  by_cases h : text = ""
  · simp [h]
  · simp only [h, if_false]
    exact le_trans (min_le_right _ _) (le_max_left _ _)

/-! ## C6 — hits as a sum of per-pattern unique span counts -/

/-- Claim C6 as frozen is false at the empty text: a pattern such as `a*`
produces the unique span `(0, 0)` in `""`, but the scorer's empty-text
short-circuit reports `0` hits rather than the span-count sum `1`. -/
theorem C6_counterexample :
    (score_text "" [patStar] 1 10).2 = 0 ∧
      ([patStar].map (fun p => (p.spans "").toFinset.card)).sum = 1 ∧
      (0 : ℕ) ≠ 1 := by
  refine ⟨by decide, ?_, by decide⟩
  simp [patStar]

/-- Claim C6 (amended): for every nonempty text, the returned hits value
is exactly the sum over the pattern list of the number of unique match
spans each pattern produces; a span matched by two different patterns is
counted once per pattern, never deduplicated across patterns.  For the
empty text `(0, 0)` is returned without consulting the patterns. -/
theorem C6_hits_sum (text : String) (pats : List Pat) (per_hit cap : ℤ)
    (h : text ≠ "") :
    (score_text text pats per_hit cap).2 =
      (pats.map (fun p => (p.spans text).toFinset.card)).sum := by
  unfold score_text
  simp only [h, if_false]
  rw [foldl_add_map (fun p => ((p.spans text).dedup).length) pats 0]
  simp [List.card_toFinset]

theorem C6_witness :
    ("x" : String) ≠ "" ∧
      (score_text "x" [patStar] 1 10).2 =
        ([patStar].map (fun p => (p.spans "x").toFinset.card)).sum :=
  ⟨by decide, C6_hits_sum "x" [patStar] 1 10 (by decide)⟩

/-! ## C8 — extract_text must not throw -/

/-- Claim C8 is right and the code is wrong: `read_txt` is the only reader
without an exception handler, so `extract_text` propagates the `open`
failure for a missing `.txt` file instead of returning `""`; every other
reader and the unsupported-format fallback do return `""` on failure. -/
theorem C8_read_txt_raises :
    extract_text emptyFsEnv "/home/u/notes.txt" = .error "FileNotFoundError" ∧
      extract_text emptyFsEnv "/home/u/notes.pdf" = .ok "" ∧
      extract_text emptyFsEnv "/home/u/notes.docx" = .ok "" ∧
      extract_text emptyFsEnv "/home/u/notes.pptx" = .ok "" ∧
      extract_text emptyFsEnv "/home/u/notes.xyz" = .ok "" :=
  ⟨rfl, rfl, rfl, rfl, rfl⟩

/-! ## C5 — the inclusive `until` bound -/

/-- Claim C5 as frozen is false for the date string `"1970-01-01"`: its
UTC-midnight epoch is `0.0`, which is falsy in Python, so
`if until_ts and ...` disables the `until` filter entirely and a file one
second past that day's end is still kept — by both the walker filter and
the path-list filter. -/
theorem C5_counterexample :
    to_epoch (some 0) = some 0 ∧
      fileKeepWalk [] 0 none (to_epoch (some 0)) "a.txt" ⟨86400, 5⟩ = true ∧
      pathListKeep [] 0 none (to_epoch (some 0)) "/x/a.txt" ⟨86400, 5⟩ = true := by
  refine ⟨by norm_num [to_epoch], ?_, ?_⟩ <;>
    simp [fileKeepWalk, pathListKeep, sinceExcludes, untilExcludes, tsTruthy,
      tsVal, to_epoch]

/-- Claim C5 (amended): for every `until` date other than 1970-01-01 (that
is, whenever the parsed UTC-midnight epoch `d * 86400` is nonzero), a file
whose modification time is exactly `until + 23:59:59` passes and a file
one second later is excluded — in the walker's per-file filter and in the
pre-resolved path-list filter alike (extension, size and `since` filters
inactive). -/
theorem C5_until_inclusive (d : ℤ) (hd : d ≠ 0) (name p : String) (sz : ℤ) :
    fileKeepWalk [] 0 none (to_epoch (some d)) name ⟨(d : ℚ) * 86400 + 86399, sz⟩ = true ∧
      fileKeepWalk [] 0 none (to_epoch (some d)) name ⟨(d : ℚ) * 86400 + 86400, sz⟩ = false ∧
      pathListKeep [] 0 none (to_epoch (some d)) p ⟨(d : ℚ) * 86400 + 86399, sz⟩ = true ∧
      pathListKeep [] 0 none (to_epoch (some d)) p ⟨(d : ℚ) * 86400 + 86400, sz⟩ = false := by
  have hq : (d : ℚ) * 86400 ≠ 0 := by
    have : (d : ℚ) ≠ 0 := Int.cast_ne_zero.mpr hd
    exact mul_ne_zero this (by norm_num)
  have hlt : ¬ ((d : ℚ) * 86400 + 86399 < (d : ℚ) * 86400 + 86399) := lt_irrefl _
  have hlt2 : (d : ℚ) * 86400 + 86399 < (d : ℚ) * 86400 + 86400 := by
    apply add_lt_add_left; norm_num
  refine ⟨?_, ?_, ?_, ?_⟩ <;>
    simp [fileKeepWalk, pathListKeep, sinceExcludes, untilExcludes, tsTruthy,
      tsVal, to_epoch, hq, hlt, hlt2]

theorem filterMap_fun_congr {α β : Type} (F G : α → Option β)
    (h : ∀ a, F a = G a) : ∀ l : List α, l.filterMap F = l.filterMap G := by
  intro l
  induction l with
  | nil => rfl
  | cons a l ih => rw [List.filterMap_cons, List.filterMap_cons, h a, ih]

theorem flatMap_fun_congr {α β : Type} (F G : α → List β)
    (h : ∀ a, F a = G a) : ∀ l : List α, l.flatMap F = l.flatMap G := by
  intro l
  induction l with
  | nil => rfl
  | cons a l ih => rw [List.flatMap_cons, List.flatMap_cons, h a, ih]

/-! ## C1 — where the category-level adjustment is applied -/

/-- Claim C1 as frozen is false for calendar (and email) items: with
category weight 2 for `teaching` and a 5-point bonus keyword `nsf`, a
matching calendar event is emitted with the raw capped score `1`, not the
adjusted `1 * 2 + 5 = 7` the claim requires. -/
theorem C1_counterexample :
    (calendarRowsForItem compiledC1 1 10 itemC1).map Row.score = [1] ∧
      (1 : ℚ) ≠
        (1 : ℚ) * catWeight [("teaching", 2)] "teaching" +
          bonusSum [("nsf", 5)] itemC1.text := by
  constructor
  · have h1 : patGrant.spans "grant nsf" = [(0, 5)] := by
      simp [patGrant]
    simp [calendarRowsForItem, compiledC1, itemC1, score_text, h1]
  · have h2 : ("nsf" : String) ≠ "" ∧ containsCI "grant nsf" "nsf" = true := by
      decide
    norm_num [catWeight, bonusSum, itemC1, h2.1, h2.2, List.find?]

/-- Claim C1 (amended): the category-level adjustment
`raw * weight + bonus` is applied only to file items — in the single-pass
path and in Pass 2 of the two-pass path — while calendar and email rows
store the raw capped subcategory score unchanged, with no category weight
and no bonus. -/
theorem C1_adjustment_by_source (compiled : Compiled)
    (cat_w bonus : List (String × ℚ)) (per_hit cap : ℤ)
    (path text metaStr whenStr : String) (item : SrcItem) :
    (fileRowsForItem compiled cat_w bonus per_hit cap path text metaStr whenStr).map
        Row.score
        = (rawPositiveScores compiled per_hit cap text).map
            (fun p => (p.2 : ℚ) * catWeight cat_w p.1 + bonusSum bonus text) ∧
      (pass2RowsForItem compiled cat_w bonus per_hit cap path text metaStr whenStr).map
        Row.score
        = (rawPositiveScores compiled per_hit cap text).map
            (fun p => (p.2 : ℚ) * catWeight cat_w p.1 + bonusSumP2 bonus text) ∧
      (calendarRowsForItem compiled per_hit cap item).map Row.score
        = (rawPositiveScores compiled per_hit cap item.text).map (fun p => (p.2 : ℚ)) ∧
      (emailRowsForItem compiled per_hit cap item).map Row.score
        = (rawPositiveScores compiled per_hit cap item.text).map (fun p => (p.2 : ℚ)) := by
  refine ⟨?_, ?_, ?_, ?_⟩ <;>
  · simp only [fileRowsForItem, pass2RowsForItem, calendarRowsForItem,
      emailRowsForItem, rawPositiveScores]
    rw [List.map_flatMap, List.map_flatMap]
    apply flatMap_fun_congr
    intro cs
    rw [List.map_filterMap, List.map_filterMap]
    apply filterMap_fun_congr
    intro sp
    by_cases h : 0 < (score_text text sp.2 per_hit cap).1 <;>
      by_cases h2 : 0 < (score_text item.text sp.2 per_hit cap).1 <;>
      simp [h, h2]

theorem applyPats_none (cat subject tag : String) (pts : ℚ) :
    ∀ (ps : List MPat), (∀ p ∈ ps, p.matches subject = false) →
      ∀ acc, applyPats cat subject tag pts ps acc = acc
  | [], _, acc => rfl
  | p :: ps, h, acc => by
    have hp : p.matches subject = false := h p (List.mem_cons_self p ps)
    rw [applyPats, if_neg (by simp [hp])]
    exact applyPats_none cat subject tag pts ps
      (fun q hq => h q (List.mem_cons_of_mem p hq)) acc

theorem applyPatternTable_none (subject tag : String) (pts : ℚ) :
    ∀ (table : List (String × List MPat)),
      (∀ cp ∈ table, ∀ p ∈ cp.2, p.matches subject = false) →
      ∀ acc, applyPatternTable subject tag pts table acc = acc
  | [], _, acc => rfl
  | cp :: rest, h, acc => by
    rw [applyPatternTable,
      applyPats_none cp.1 subject tag pts cp.2 (h cp (List.mem_cons_self cp rest)) acc]
    exact applyPatternTable_none subject tag pts rest
      (fun q hq => h q (List.mem_cons_of_mem cp hq)) acc

theorem addTo_keys (sc : Scores) (cat : String) (d : ℚ) :
    (addTo sc cat d).map Prod.fst = sc.map Prod.fst := by
  unfold addTo
  rw [List.map_map]
  apply List.map_congr_left
  intro kv _
  by_cases h : kv.1 = cat <;> simp [h]

theorem addAll_keys (sc : Scores) (d : ℚ) :
    (addAll sc d).map Prod.fst = sc.map Prod.fst := by
  unfold addAll
  rw [List.map_map]
  rfl

theorem applyPats_keys (cat subject tag : String) (pts : ℚ) :
    ∀ (ps : List MPat) (acc : Scores × List String),
      (applyPats cat subject tag pts ps acc).1.map Prod.fst = acc.1.map Prod.fst
  | [], _ => rfl
  | p :: ps, acc => by
    rw [applyPats]
    rw [applyPats_keys cat subject tag pts ps]
    by_cases h : p.matches subject = true <;> simp [h, addTo_keys]

theorem applyPatternTable_keys (subject tag : String) (pts : ℚ) :
    ∀ (table : List (String × List MPat)) (acc : Scores × List String),
      (applyPatternTable subject tag pts table acc).1.map Prod.fst = acc.1.map Prod.fst
  | [], _ => rfl
  | cp :: rest, acc => by
    rw [applyPatternTable, applyPatternTable_keys subject tag pts rest,
      applyPats_keys]

theorem applyExtHints_keys (ext : String) :
    ∀ (hints : List (String × List (String × ℚ))) (acc : Scores × List String),
      (applyExtHints ext hints acc).1.map Prod.fst = acc.1.map Prod.fst
  | [], _ => rfl
  | ce :: rest, acc => by
    rw [applyExtHints, applyExtHints_keys ext rest]
    cases h : ce.2.find? (fun es => es.1 = ext) <;> simp [h, addTo_keys]

theorem foldBest_mem :
    ∀ (rest : List (String × ℚ)) (kv : String × ℚ),
      (rest.foldl (fun acc x => if acc.2 < x.2 then x else acc) kv).1 ∈
        kv.1 :: rest.map Prod.fst
  | [], kv => List.mem_cons_self _ _
  | x :: rest, kv => by
    rw [List.foldl_cons]
    have h := foldBest_mem rest (if kv.2 < x.2 then x else kv)
    rcases List.mem_cons.mp h with h1 | h1
    · rw [h1]
      by_cases hx : kv.2 < x.2 <;> simp [hx]
    · simp [List.mem_cons.mpr (Or.inr (List.mem_cons_of_mem _ h1))]

theorem bestOf_mem (sc : Scores) (h : sc ≠ []) :
    (bestOf sc).1 ∈ sc.map Prod.fst := by
  cases sc with
  | nil => exact absurd rfl h
  | cons kv rest =>
    unfold bestOf
    simpa using foldBest_mem rest kv

/-! ## C3 — Pass 1 classification and the clock -/

/-- Claim C3 as frozen is false: `analyze_file_metadata` reads the current
clock (`time.time()` at `scan_optimized.py:96`), so the same
`(path, statInfo)` pair classified at two different times yields different
records — here a file with `mtime = 0` gets the `recent_file` boost at
`now = 0` (confidence `3.5`, reasons ending in `recent_file`) but not at
`now = 400` days (confidence `3`). -/
theorem C3_counterexample :
    (analyze_file_metadata (load_metadata_rules []) 0 "/x/a.pdf"
        ⟨0, 2048⟩).confidence = 7 / 2 ∧
      (analyze_file_metadata (load_metadata_rules []) 34560000 "/x/a.pdf"
        ⟨0, 2048⟩).confidence = 3 ∧
      (analyze_file_metadata (load_metadata_rules []) 0 "/x/a.pdf"
          ⟨0, 2048⟩).reasons ≠
        (analyze_file_metadata (load_metadata_rules []) 34560000 "/x/a.pdf"
          ⟨0, 2048⟩).reasons := by
  have hbase : lowerStr (basename "/x/a.pdf") = "a.pdf" := by decide
  have hpath : lowerStr "/x/a.pdf" = "/x/a.pdf" := by decide
  have hext : extOf "a.pdf" = ".pdf" := by decide
  have hfn : ∀ cp ∈ (load_metadata_rules []).filename_patterns,
      ∀ p ∈ cp.2, p.matches "a.pdf" = false := by decide
  have hpp : ∀ cp ∈ (load_metadata_rules []).path_patterns,
      ∀ p ∈ cp.2, p.matches "/x/a.pdf" = false := by decide
  have hd1 : (decide ((".pptx" : String) = ".pdf")) = false := by rfl
  have hd2 : (decide ((".pdf" : String) = ".pdf")) = true := by rfl
  refine ⟨?_, ?_, ?_⟩ <;>
  · simp only [analyze_file_metadata, hbase, hpath, hext,
      applyPatternTable_none _ _ _ _ hfn, applyPatternTable_none _ _ _ _ hpp]
    simp [applyExtHints, load_metadata_rules, addTo, addAll, bestOf,
      List.find?, hd1, hd2]
    try norm_num

/-- Claim C3 (amended): classification is a pure function of
`(path, statInfo, currentTime)`, and the clock enters only through the
under-365-days recency test: whenever two clock readings agree on that
test, the classified category, confidence, per-category scores and reasons
all coincide (only the reported `age_days` can differ).  Identical
`(path, statInfo)` alone do not determine the output. -/
theorem C3_classify_clock (rules : MetadataRules) (now now2 : ℚ)
    (filepath : String) (st : Stat)
    (h : (now - st.st_mtime) / 86400 < 365 ↔ (now2 - st.st_mtime) / 86400 < 365) :
    (analyze_file_metadata rules now filepath st).category =
        (analyze_file_metadata rules now2 filepath st).category ∧
      (analyze_file_metadata rules now filepath st).confidence =
        (analyze_file_metadata rules now2 filepath st).confidence ∧
      (analyze_file_metadata rules now filepath st).scores =
        (analyze_file_metadata rules now2 filepath st).scores ∧
      (analyze_file_metadata rules now filepath st).reasons =
        (analyze_file_metadata rules now2 filepath st).reasons := by
  by_cases hc : (now - st.st_mtime) / 86400 < 365
  · have hc2 : (now2 - st.st_mtime) / 86400 < 365 := h.mp hc
    refine ⟨?_, ?_, ?_, ?_⟩ <;>
      simp only [analyze_file_metadata, if_pos hc, if_pos hc2,
        apply_ite FileMetadataRecord.category,
        apply_ite FileMetadataRecord.confidence,
        apply_ite FileMetadataRecord.scores,
        apply_ite FileMetadataRecord.reasons]
  · have hc2 : ¬ (now2 - st.st_mtime) / 86400 < 365 := fun hx => hc (h.mpr hx)
    refine ⟨?_, ?_, ?_, ?_⟩ <;>
      simp only [analyze_file_metadata, if_neg hc, if_neg hc2,
        apply_ite FileMetadataRecord.category,
        apply_ite FileMetadataRecord.confidence,
        apply_ite FileMetadataRecord.scores,
        apply_ite FileMetadataRecord.reasons]

theorem C3_classify_clock_witness :
    ((0 : ℚ) - 0) / 86400 < 365 ∧ (((86400 : ℚ) - 0) / 86400 < 365) ∧
      (analyze_file_metadata (load_metadata_rules []) 0 "/x/a.pdf"
          ⟨0, 2048⟩).category =
        (analyze_file_metadata (load_metadata_rules []) 86400 "/x/a.pdf"
          ⟨0, 2048⟩).category :=
  ⟨by norm_num, by norm_num,
    (C3_classify_clock (load_metadata_rules []) 0 86400 "/x/a.pdf" ⟨0, 2048⟩
      (by norm_num)).1⟩

/-! ## C7 — the Pass 1 category set -/

/-- Claim C7 as frozen is false: the accumulators are the hard-coded
`{teaching, service, scholarship}` dict, not the configured category set —
a configuration declaring the category `outreach` gets no accumulator for
it and the best guess can never be `outreach`. -/
theorem C7_counterexample :
    ("outreach" ∈ (["outreach"] : List String)) ∧
      (analyze_file_metadata (load_metadata_rules ["outreach"]) 0 "/x/a.pdf"
        ⟨0, 2048⟩).scores.map Prod.fst = ["teaching", "service", "scholarship"] ∧
      (analyze_file_metadata (load_metadata_rules ["outreach"]) 0 "/x/a.pdf"
        ⟨0, 2048⟩).category = "scholarship" ∧
      "outreach" ∉ (["teaching", "service", "scholarship"] : List String) ∧
      "outreach" ≠ "scholarship" := by
  have hbase : lowerStr (basename "/x/a.pdf") = "a.pdf" := by decide
  have hpath : lowerStr "/x/a.pdf" = "/x/a.pdf" := by decide
  have hext : extOf "a.pdf" = ".pdf" := by decide
  have hfn : ∀ cp ∈ (load_metadata_rules ["outreach"]).filename_patterns,
      ∀ p ∈ cp.2, p.matches "a.pdf" = false := by decide
  have hpp : ∀ cp ∈ (load_metadata_rules ["outreach"]).path_patterns,
      ∀ p ∈ cp.2, p.matches "/x/a.pdf" = false := by decide
  have hd1 : (decide ((".pptx" : String) = ".pdf")) = false := by rfl
  have hd2 : (decide ((".pdf" : String) = ".pdf")) = true := by rfl
  refine ⟨by decide, ?_, ?_, by decide, by decide⟩ <;>
  · simp only [analyze_file_metadata, hbase, hpath, hext,
      applyPatternTable_none _ _ _ _ hfn, applyPatternTable_none _ _ _ _ hpp]
    simp [applyExtHints, load_metadata_rules, addTo, addAll, bestOf,
      List.find?, hd1, hd2]
    try norm_num

theorem analyze_scores_keys (rules : MetadataRules) (now : ℚ)
    (filepath : String) (st : Stat) :
    (analyze_file_metadata rules now filepath st).scores.map Prod.fst =
      ["teaching", "service", "scholarship"] := by
  simp only [analyze_file_metadata, apply_ite FileMetadataRecord.scores,
    ite_self]
  simp only [apply_ite (Prod.fst : Scores × List String → Scores),
    apply_ite (List.map (Prod.fst : String × ℚ → String)),
    addAll_keys, applyExtHints_keys, applyPatternTable_keys, ite_self]
  simp

theorem bestOf_mem_of_keys (sc : Scores)
    (hk : sc.map Prod.fst = ["teaching", "service", "scholarship"]) :
    (bestOf sc).1 ∈ ["teaching", "service", "scholarship", "misc"] := by
  have hne : sc ≠ [] := by
    intro h0
    rw [h0] at hk
    exact absurd hk (by simp)
  have h := bestOf_mem sc hne
  rw [hk] at h
  simp at h ⊢
  tauto

theorem ite_best_mem (c : Prop) [Decidable c] (sc : Scores)
    (hk : sc.map Prod.fst = ["teaching", "service", "scholarship"]) :
    (if c then "misc" else (bestOf sc).1) ∈
      ["teaching", "service", "scholarship", "misc"] := by
  split
  · simp
  · exact bestOf_mem_of_keys sc hk

theorem analyze_category_mem (rules : MetadataRules) (now : ℚ)
    (filepath : String) (st : Stat) :
    (analyze_file_metadata rules now filepath st).category ∈
      ["teaching", "service", "scholarship", "misc"] := by
  simp only [analyze_file_metadata, apply_ite FileMetadataRecord.category]
  exact ite_best_mem _ _ (by
    simp only [apply_ite (Prod.fst : Scores × List String → Scores),
      apply_ite (List.map (Prod.fst : String × ℚ → String)),
      addAll_keys, applyExtHints_keys, applyPatternTable_keys, ite_self]
    simp)

/-- Claim C7 (amended): Pass 1 is configuration-independent — the rule
tables ignore the configured category list entirely, the score
accumulators are initialized for exactly the fixed set
`{teaching, service, scholarship}` (in that order), and the best-guess
category always lies in that fixed set extended by the sentinel `misc`. -/
theorem C7_fixed_category_set (cats cats2 : List String) (now : ℚ)
    (filepath : String) (st : Stat) :
    load_metadata_rules cats = load_metadata_rules cats2 ∧
      (analyze_file_metadata (load_metadata_rules cats) now filepath st).scores.map
          Prod.fst = ["teaching", "service", "scholarship"] ∧
      (analyze_file_metadata (load_metadata_rules cats) now filepath st).category ∈
        ["teaching", "service", "scholarship", "misc"] :=
  ⟨rfl, analyze_scores_keys (load_metadata_rules cats) now filepath st,
    analyze_category_mem (load_metadata_rules cats) now filepath st⟩

/-! ## C4 — bonus granularity -/

/-- Claim C4 as frozen is false: with one 5-point bonus keyword and an
item scoring positively on two subcategories, each emitted row carries the
bonus, so the item receives `5 + 5` bonus points in total rather than the
claimed once-per-item `5` (row scores `1 * 1 + 5 = 6` each, totalling
`12 ≠ 1 + 1 + 5`). -/
theorem C4_counterexample :
    ((fileRowsForItem compiledC4 [] [("nsf", 5)] 1 10 "/p" "grant nsf review"
        "m" "w").map Row.score) = [6, 6] ∧
      ((6 : ℚ) + 6) ≠ ((1 : ℚ) * 1 + 1 * 1) + 5 := by
  constructor
  · have hg : patG4.spans "grant nsf review" = [(0, 5)] := by
      simp [patG4]
    have hr : patR4.spans "grant nsf review" = [(10, 16)] := by
      simp [patR4]
    have hb : ("nsf" : String) ≠ "" ∧
        containsCI "grant nsf review" "nsf" = true := by decide
    simp [fileRowsForItem, compiledC4, score_text, hg, hr, catWeight,
      bonusSum, hb.1, hb.2]
    norm_num
  · norm_num

/-- Claim C4 (amended): the bonus is per emitted row, not per item — every
file row (single-pass or Pass 2) stores
`raw * categoryWeight + bonusSum`, where the bonus sum counts each
matching keyword once for that row regardless of its hit count in the
text; an item with several positively-scored subcategories therefore
receives the keyword bonus once in each of its rows. -/
theorem C4_bonus_per_row (compiled : Compiled) (cat_w bonus : List (String × ℚ))
    (per_hit cap : ℤ) (path text metaStr whenStr : String) (r : Row) :
    (r ∈ fileRowsForItem compiled cat_w bonus per_hit cap path text metaStr whenStr →
      ∃ s : ℤ, 0 < s ∧
        r.score = (s : ℚ) * catWeight cat_w r.category + bonusSum bonus text) ∧
    (r ∈ pass2RowsForItem compiled cat_w bonus per_hit cap path text metaStr whenStr →
      ∃ s : ℤ, 0 < s ∧
        r.score = (s : ℚ) * catWeight cat_w r.category + bonusSumP2 bonus text) := by
  constructor <;>
  · intro hr
    simp only [fileRowsForItem, pass2RowsForItem] at hr
    rw [List.mem_flatMap] at hr
    obtain ⟨cs, _, hr⟩ := hr
    rw [List.mem_filterMap] at hr
    obtain ⟨sp, _, hr⟩ := hr
    by_cases h : 0 < (score_text text sp.2 per_hit cap).1
    · simp only [h, if_pos] at hr
      have hre := Option.some.inj hr
      refine ⟨(score_text text sp.2 per_hit cap).1, h, ?_⟩
      rw [← hre]
    · simp [h] at hr

theorem C4_bonus_per_row_witness :
    ∃ s : ℤ, 0 < s ∧
      ({ source := "files", path := "/p", display := "/p", category := "teaching",
         subcategory := "s1", hits := 1, score := 6, meta := "m", when := "w" } :
           Row).score =
        (s : ℚ) * catWeight [] "teaching" + bonusSum [("nsf", 5)] "grant nsf review" :=
  (C4_bonus_per_row compiledC4 [] [("nsf", 5)] 1 10 "/p" "grant nsf review" "m" "w"
      _).1 (by
    have hg : patG4.spans "grant nsf review" = [(0, 5)] := by
      simp [patG4]
    have hb : ("nsf" : String) ≠ "" ∧
        containsCI "grant nsf review" "nsf" = true := by decide
    simp [fileRowsForItem, compiledC4, score_text, hg, catWeight,
      bonusSum, hb.1, hb.2]
    norm_num)

theorem C5_until_inclusive_witness :
    (1 : ℤ) ≠ 0 ∧
      fileKeepWalk [] 0 none (to_epoch (some 1)) "a.txt"
        ⟨(1 : ℚ) * 86400 + 86399, 5⟩ = true ∧
      fileKeepWalk [] 0 none (to_epoch (some 1)) "a.txt"
        ⟨(1 : ℚ) * 86400 + 86400, 5⟩ = false ∧
      pathListKeep [] 0 none (to_epoch (some 1)) "/x/a.txt"
        ⟨(1 : ℚ) * 86400 + 86399, 5⟩ = true ∧
      pathListKeep [] 0 none (to_epoch (some 1)) "/x/a.txt"
        ⟨(1 : ℚ) * 86400 + 86400, 5⟩ = false :=
  ⟨by decide, C5_until_inclusive 1 (by decide) "a.txt" "/x/a.txt" 5⟩

/-! ## C9 — the final sort keys -/

theorem byKey_trans {γ α : Type} [LinearOrder α] (f : γ → α)
    (rest : γ → γ → Prop) (hr : ∀ a b c, rest a b → rest b c → rest a c) :
    ∀ a b c, byKey f rest a b → byKey f rest b c → byKey f rest a c := by
  intro a b c hab hbc
  rcases hab with h1 | ⟨h1, h1r⟩ <;> rcases hbc with h2 | ⟨h2, h2r⟩
  · exact Or.inl (lt_trans h1 h2)
  · exact Or.inl (lt_of_lt_of_le h1 (le_of_eq h2))
  · exact Or.inl (lt_of_le_of_lt (le_of_eq h1) h2)
  · exact Or.inr ⟨h1.trans h2, hr a b c h1r h2r⟩

theorem byKey_total {γ α : Type} [LinearOrder α] (f : γ → α)
    (rest : γ → γ → Prop) (hr : ∀ a b, rest a b ∨ rest b a) :
    ∀ a b, byKey f rest a b ∨ byKey f rest b a := by
  intro a b
  rcases lt_trichotomy (f a) (f b) with h | h | h
  · exact Or.inl (Or.inl h)
  · rcases hr a b with hh | hh
    · exact Or.inl (Or.inr ⟨h, hh⟩)
    · exact Or.inr (Or.inr ⟨h.symm, hh⟩)
  · exact Or.inr (Or.inl h)

theorem rowLe5_trans : ∀ a b c, rowLe5 a b → rowLe5 b c → rowLe5 a c := by
  unfold rowLe5
  exact byKey_trans _ _ (byKey_trans _ _ (byKey_trans _ _ (byKey_trans _ _
    (fun a b c h1 h2 => le_trans h1 h2))))

theorem rowLe5_total : ∀ a b, rowLe5 a b ∨ rowLe5 b a := by
  unfold rowLe5
  exact byKey_total _ _ (byKey_total _ _ (byKey_total _ _ (byKey_total _ _
    (fun a b => le_total a.display.data b.display.data))))

theorem rowLe4_trans : ∀ a b c, rowLe4 a b → rowLe4 b c → rowLe4 a c := by
  unfold rowLe4
  exact byKey_trans _ _ (byKey_trans _ _ (byKey_trans _ _
    (fun a b c h1 h2 => le_trans h1 h2)))

theorem rowLe4_total : ∀ a b, rowLe4 a b ∨ rowLe4 b a := by
  unfold rowLe4
  exact byKey_total _ _ (byKey_total _ _ (byKey_total _ _
    (fun a b => le_total a.subcategory.data b.subcategory.data)))

/-- Claim C9 as frozen is false for the two-pass path: two rows that tie
on `(source, -score, category, subcategory)` but differ in display stay in
input order (`/b` before `/a`, by stability), so the output is not sorted
by the five-component key that includes display. -/
theorem C9_counterexample :
    sortRowsTwoPass [rowB, rowA] = [rowB, rowA] ∧
      ¬ ([rowB, rowA].Sorted rowLe5) := by
  constructor
  · decide
  · intro hs
    have h := List.rel_of_sorted_cons hs rowA (List.mem_singleton_self rowA)
    revert h
    decide

/-- Claim C9 (amended): at the end of a run the single-pass scanner sorts
all accumulated rows by the five-component key
`(source, -score, category, subcategory, display)`, but the two-pass
scanner sorts only by the four-component key
`(source, -score, category, subcategory)` — without the display
tie-break.  Both sorts are deterministic (stable) functions of the row
list. -/
theorem C9_sort_keys (rows : List Row) :
    (sortRowsSinglePass rows).Sorted rowLe5 ∧
      (sortRowsTwoPass rows).Sorted rowLe4 := by
  constructor
  · haveI h1 : IsTrans Row rowLe5 := ⟨fun a b c => rowLe5_trans a b c⟩
    haveI h2 : IsTotal Row rowLe5 := ⟨fun a b => rowLe5_total a b⟩
    exact List.sorted_insertionSort rowLe5 rows
  · haveI h1 : IsTrans Row rowLe4 := ⟨fun a b c => rowLe4_trans a b c⟩
    haveI h2 : IsTotal Row rowLe4 := ⟨fun a b => rowLe4_total a b⟩
    exact List.sorted_insertionSort rowLe4 rows

/-! ## C10 — pruning before descent -/

mutual

theorem walkVisited_sound (excl : List String) :
    ∀ (t : FSDir) (p : List String), p ∈ walkVisited excl t →
      p.head? = some t.dname ∧ ∀ c ∈ p.tail, c ∉ excl
  | .mk n subs files, p, hp => by
    rw [walkVisited] at hp
    rcases List.mem_cons.mp hp with h | h
    · subst h
      exact ⟨rfl, by simp⟩
    · obtain ⟨hhead, htail⟩ := walkVisitedKids_sound excl n subs p h
      exact ⟨hhead, htail⟩

theorem walkVisitedKids_sound (excl : List String) (n : String) :
    ∀ (ds : List FSDir) (p : List String), p ∈ walkVisitedKids excl n ds →
      p.head? = some n ∧ ∀ c ∈ p.tail, c ∉ excl
  | [], p, hp => absurd hp (by rw [walkVisitedKids]; simp)
  | d :: ds, p, hp => by
    rw [walkVisitedKids] at hp
    rcases List.mem_append.mp hp with h | h
    · by_cases hd : excl.contains d.dname
      · rw [if_pos hd] at h
        exact absurd h (List.not_mem_nil p)
      · rw [if_neg hd] at h
        obtain ⟨q, hq, hpq⟩ := List.mem_map.mp h
        obtain ⟨hqh, hqt⟩ := walkVisited_sound excl d q hq
        subst hpq
        refine ⟨rfl, ?_⟩
        intro c hc
        cases q with
        | nil => exact absurd hc (List.not_mem_nil c)
        | cons q0 qt =>
          have hq0 : q0 = d.dname := by simpa using hqh
          rcases List.mem_cons.mp hc with hc0 | hc0
          · subst hc0
            rw [hq0]
            simpa using hd
          · exact hqt c hc0
    · exact walkVisitedKids_sound excl n ds p h

end

mutual

theorem walk_files_sound (excl exts : List String) (maxB : ℤ)
    (sts uts : Option ℚ) :
    ∀ (t : FSDir) (p : List String),
      p ∈ walk_files excl exts maxB sts uts t →
      p.head? = some t.dname ∧ ∀ c ∈ p.tail.dropLast, c ∉ excl
  | .mk n subs files, p, hp => by
    rw [walk_files] at hp
    rcases List.mem_append.mp hp with h | h
    · obtain ⟨f, _, hf⟩ := List.mem_filterMap.mp h
      split at hf
      · exact absurd hf (by simp)
      · split at hf
        · obtain rfl := Option.some.inj hf
          exact ⟨rfl, by simp⟩
        · exact absurd hf (by simp)
    · exact walkFilesKids_sound excl exts maxB sts uts n subs p h

theorem walkFilesKids_sound (excl exts : List String) (maxB : ℤ)
    (sts uts : Option ℚ) (n : String) :
    ∀ (ds : List FSDir) (p : List String),
      p ∈ walkFilesKids excl exts maxB sts uts n ds →
      p.head? = some n ∧ ∀ c ∈ p.tail.dropLast, c ∉ excl
  | [], p, hp => absurd hp (by rw [walkFilesKids]; simp)
  | d :: ds, p, hp => by
    rw [walkFilesKids] at hp
    rcases List.mem_append.mp hp with h | h
    · by_cases hd : excl.contains d.dname
      · rw [if_pos hd] at h
        exact absurd h (List.not_mem_nil p)
      · rw [if_neg hd] at h
        obtain ⟨q, hq, hpq⟩ := List.mem_map.mp h
        obtain ⟨hqh, hqt⟩ := walk_files_sound excl exts maxB sts uts d q hq
        subst hpq
        refine ⟨rfl, ?_⟩
        intro c hc
        simp only [List.tail_cons] at hc
        cases q with
        | nil => exact absurd hc (by simp)
        | cons q0 qt =>
          have hq0 : q0 = d.dname := by simpa using hqh
          cases qt with
          | nil => exact absurd hc (by simp)
          | cons q1 qt2 =>
            rw [List.dropLast_cons₂] at hc
            rcases List.mem_cons.mp hc with hc0 | hc0
            · subst hc0
              rw [hq0]
              simpa using hd
            · exact hqt c (by simpa using hc0)
    · exact walkFilesKids_sound excl exts maxB sts uts n ds p h

end

/-- Claim C10: for every set of roots and every exclude set, the walker
prunes excluded basenames before descending — every directory it visits
lies on a path whose components below the root avoid the exclude set (the
excluded subtree is never visited at all), and consequently every yielded
file path has no excluded component between its root and its filename.
The pruning line is identical in `walk_files` (`scan.py:96`) and
`walk_directories` (`scan_optimized.py:355`). -/
theorem C10_prune_before_descent (exclude_dirs include_exts : List String)
    (max_bytes : ℤ) (since_ts until_ts : Option ℚ) (roots : List FSDir) :
    (∀ p ∈ roots.flatMap (walkVisited exclude_dirs),
        ∀ c ∈ p.tail, c ∉ exclude_dirs) ∧
      (∀ p ∈ roots.flatMap
          (walk_files exclude_dirs include_exts max_bytes since_ts until_ts),
        ∀ c ∈ p.tail.dropLast, c ∉ exclude_dirs) := by
  constructor
  · intro p hp
    obtain ⟨t, _, hpt⟩ := List.mem_flatMap.mp hp
    exact (walkVisited_sound exclude_dirs t p hpt).2
  · intro p hp
    obtain ⟨t, _, hpt⟩ := List.mem_flatMap.mp hp
    exact (walk_files_sound exclude_dirs include_exts max_bytes since_ts
      until_ts t p hpt).2

theorem C10_prune_witness :
    (["root", "docs"] ∈ ([treeC10].flatMap (walkVisited ["node_modules"])) ∧
        ∀ c ∈ (["root", "docs"] : List String).tail, c ∉ ["node_modules"]) ∧
      (["root", "docs", "a.txt"] ∈
          ([treeC10].flatMap (walk_files ["node_modules"] [] 0 none none)) ∧
        ∀ c ∈ (["root", "docs", "a.txt"] : List String).tail.dropLast,
          c ∉ ["node_modules"]) := by
  have h1 : ["root", "docs"] ∈ ([treeC10].flatMap (walkVisited ["node_modules"])) := by
    simp [treeC10, walkVisited, walkVisitedKids, FSDir.dname]
  have h2 : ["root", "docs", "a.txt"] ∈
      ([treeC10].flatMap (walk_files ["node_modules"] [] 0 none none)) := by
    simp [treeC10, walk_files, walkFilesKids, FSDir.dname, fileKeepWalk,
      sinceExcludes, untilExcludes, tsTruthy]
  exact ⟨⟨h1, (C10_prune_before_descent ["node_modules"] [] 0 none none
      [treeC10]).1 ["root", "docs"] h1⟩,
    ⟨h2, (C10_prune_before_descent ["node_modules"] [] 0 none none
      [treeC10]).2 ["root", "docs", "a.txt"] h2⟩⟩

end AEF
